import Mathlib

/-!
Verification development for the rubric formatter application (src/app.py).

The Python source is shallowly embedded into Lean as follows.

* Text handled by the rubric parser is modeled as Lean `String`.  The parser
  only ever applies its regular expressions to single stripped lines, so `$`
  is modeled as end of input (honoring the one final newline Python `$`
  tolerates where that is cheap to do).
* The RTF decoder and the byte decoder work on Unicode code points
  respectively bytes, modeled as `List Nat` / `List (Fin 256)`, because
  Python strings may hold lone surrogates that a Lean `Char` cannot.
* Python `float` values (item point values and scores) are modeled as `ℚ`.
  The short decimal literals and quarter point steps handled by the
  application are represented exactly; binary rounding of IEEE doubles is
  not modeled.
* Python dicts are modeled as insertion ordered association lists, and the
  score/explanation dicts passed into `format_output` as `Option` valued
  lookup functions (`dict.get` with a default).
* A raised exception is modeled as `Option.none`.
* Regular expressions are hand compiled into parsing functions.  Greedy and
  lazy subpattern interaction was resolved by hand; comments note where the
  surrounding pattern makes maximal munch exact.  `\d` and `\D` are modeled
  as ASCII digits (the inputs of interest are ASCII).
* Loops that advance a cursor over a list of lines are written with an
  explicit fuel argument so that all definitions reduce inside the kernel;
  each loop iteration consumes at least one line, so fuel equal to the
  number of lines never runs out.
-/

namespace RubricApp

/-- Python str whitespace: the set matched by `\s` and stripped by
`str.strip`, as code points. -/
def pyIsSpaceN (n : Nat) : Bool :=
  decide (n = 32 ∨ n = 9 ∨ n = 10 ∨ n = 13 ∨ n = 11 ∨ n = 12 ∨
    (28 ≤ n ∧ n ≤ 31) ∨ n = 0x85 ∨ n = 0xa0 ∨ n = 0x1680 ∨
    (0x2000 ≤ n ∧ n ≤ 0x200a) ∨ n = 0x2028 ∨ n = 0x2029 ∨ n = 0x202f ∨
    n = 0x205f ∨ n = 0x3000)

/-- Python str whitespace as a character predicate. -/
def pyIsSpace (c : Char) : Bool := pyIsSpaceN c.toNat

/-- Python `str.lstrip()`. -/
def pyLstrip (s : String) : String := String.mk (s.data.dropWhile pyIsSpace)

/-- Python `str.rstrip()`. -/
def pyRstrip (s : String) : String :=
  String.mk ((s.data.reverse.dropWhile pyIsSpace).reverse)

/-- Python `str.strip()`. -/
def pyStrip (s : String) : String := pyLstrip (pyRstrip s)

/-- The line boundary characters recognized by Python `str.splitlines`. -/
def isLineBreak (c : Char) : Bool :=
  decide (c.toNat = 10 ∨ c.toNat = 13 ∨ c.toNat = 11 ∨ c.toNat = 12 ∨
    c.toNat = 28 ∨ c.toNat = 29 ∨ c.toNat = 30 ∨ c.toNat = 0x85 ∨
    c.toNat = 0x2028 ∨ c.toNat = 0x2029)

/-- Worker for `pySplitlines`; `cur` is the line accumulated so far. -/
def splitlinesAux (cur : List Char) : List Char → List String
  | [] => if cur = [] then [] else [String.mk cur]
  | '\r' :: '\n' :: t => String.mk cur :: splitlinesAux [] t
  | c :: r =>
    if isLineBreak c then String.mk cur :: splitlinesAux [] r
    else splitlinesAux (cur ++ [c]) r

/-- Python `str.splitlines()`: splits at line boundaries, `\r\n` counting as
one boundary, with no entry for a trailing boundary. -/
def pySplitlines (s : String) : List String := splitlinesAux [] s.data

/-- Python `"\n".join(...)`. -/
def joinNl : List String → String
  | [] => ""
  | [l] => l
  | l :: ls => l ++ "\n" ++ joinNl ls

/-- Numeric value of a list of ASCII digits, as `int()` computes it. -/
def natOfDigits (ds : List Char) : Nat :=
  ds.foldl (fun a c => 10 * a + (c.toNat - 48)) 0

/-- Python `float()` applied to a string of the shape `digits` or
`digits.digits` (the only shapes produced by the matched groups); decimal
values are represented exactly in `ℚ`. -/
def parseDecimal (s : String) : ℚ :=
  let p := s.data.span Char.isDigit
  match p.2 with
  | '.' :: r2 =>
    ((natOfDigits p.1 * 10 ^ r2.length + natOfDigits r2 : ℕ) : ℚ) / ((10 : ℚ) ^ r2.length)
  | _ => (natOfDigits p.1 : ℚ)

/-- Number of decimal digits of `n` (1 for 0); the first argument is fuel. -/
def numDigitsF : Nat → Nat → Nat
  | 0, _ => 1
  | f + 1, n => if n < 10 then 1 else numDigitsF f (n / 10) + 1

/-- Number of decimal digits of `n`. -/
def numDigits (n : Nat) : Nat := numDigitsF n n

/-- Decimal digit characters of `n`, most significant first; fueled. -/
def natDigitsStrF : Nat → Nat → List Char
  | 0, _ => []
  | f + 1, n =>
    if n < 10 then [Char.ofNat (48 + n)]
    else natDigitsStrF f (n / 10) ++ [Char.ofNat (48 + n % 10)]

/-- Decimal representation of a natural number. -/
def natRepr (n : Nat) : String := String.mk (natDigitsStrF (n + 1) n)

/-- Smallest `k ≥ start` with `1 ≤ q * 10 ^ k`, searched with fuel. -/
def findKF : Nat → ℚ → Nat → Nat
  | 0, _, k => k
  | f + 1, q, k => if 1 ≤ q * (10 : ℚ) ^ k then k else findKF f q (k + 1)

/-- Decimal exponent of a positive rational: the unique `e` with
`10 ^ e ≤ q < 10 ^ (e + 1)`. -/
def decExp (q : ℚ) : ℤ :=
  if 1 ≤ q then (numDigits (Int.toNat q.floor) : ℤ) - 1
  else -(findKF (numDigits q.den + 1) q 1 : ℤ)

/-- Round to the nearest integer, ties to even, as C `printf` rounds. -/
def roundHalfEven (x : ℚ) : ℤ :=
  let f := x.floor
  let r := x - (f : ℚ)
  if r < 1 / 2 then f
  else if 1 / 2 < r then f + 1
  else if f % 2 = 0 then f else f + 1

/-- Drop trailing zero digits. -/
def stripZeros (s : List Char) : List Char :=
  (s.reverse.dropWhile (fun c => c = '0')).reverse

/-- Two digit zero padded decimal, for exponents. -/
def pad2 (n : Nat) : String := if n < 10 then "0" ++ natRepr n else natRepr n

/-- Formatting of a positive rational in `%g` style: 6 significant digits, trailing
zeros removed, scientific notation when the exponent leaves `[-4, 6)`. -/
def fmtGPos (q : ℚ) : String :=
  let e0 := decExp q
  let n0 := roundHalfEven (q * (10 : ℚ) ^ (5 - e0))
  let ne : ℤ × ℤ := if n0 = 10 ^ 6 then ((10 : ℤ) ^ 5, e0 + 1) else (n0, e0)
  let ds := natDigitsStrF (ne.1.toNat + 1) ne.1.toNat
  let e := ne.2
  if -4 ≤ e ∧ e < 6 then
    if 0 ≤ e then
      let ip := ds.take (e.toNat + 1)
      let fp := stripZeros (ds.drop (e.toNat + 1))
      if fp = [] then String.mk ip else String.mk ip ++ "." ++ String.mk fp
    else
      "0." ++ String.mk (List.replicate (-e - 1).toNat '0') ++ String.mk (stripZeros ds)
  else
    let sig := stripZeros ds
    (match sig with
     | [c] => String.mk [c]
     | c :: rest => String.mk [c] ++ "." ++ String.mk rest
     | [] => "0") ++ "e" ++ (if e < 0 then "-" else "+") ++ pad2 e.natAbs

/-- Python `format(x, "g")` under the `ℚ` model of floats. -/
def pyFormatG (q : ℚ) : String :=
  if q = 0 then "0" else if q < 0 then "-" ++ fmtGPos (-q) else fmtGPos q

/-- The tail `\s*(.+)$` of a pattern, applied to the rest of a line: greedy
`\s*`, then a nonempty greedy capture running to the end.  When everything
left is whitespace the engine gives one character back to `.+`; `$` also
matches before one final newline, and `.` never matches a newline. -/
def captureRestG (cs : List Char) : Option String :=
  let core := if cs.getLast? = some '\n' then cs.dropLast else cs
  let t := core.dropWhile pyIsSpace
  if t.contains '\n' then none
  else
    match t with
    | _ :: _ => some (String.mk t)
    | [] =>
      match core.getLast? with
      | some c => if c = '\n' then none else some (String.mk [c])
      | none => none

/-- The code subpattern `[A-Z]?\d{1,3}(?:\.\d{1,3})?` of the range header
pattern.  In both of its contexts the next pattern character (`\s*` plus a
dash, or a closing parenthesis) can match neither a digit nor a dot, so all
shorter backtracking alternatives are dead and maximal munch is exact. -/
def parseRCode (cs : List Char) : Option (List Char × List Char) :=
  let lp : List Char × List Char :=
    match cs with
    | c :: rest => if c.isUpper then ([c], rest) else ([], cs)
    | [] => ([], [])
  let dp := lp.2.span Char.isDigit
  if dp.1.length < 1 ∨ 3 < dp.1.length then none
  else
    match dp.2 with
    | '.' :: cs3 =>
      let fp := cs3.span Char.isDigit
      if 1 ≤ fp.1.length ∧ fp.1.length ≤ 3 then
        some (lp.1 ++ dp.1 ++ '.' :: fp.1, fp.2)
      else none
    | _ => some (lp.1 ++ dp.1, dp.2)

/-- The source regex `range_pattern`:
`^([A-Z]?\d{1,3}(?:\.\d{1,3})?)\s*[–-]\s*([A-Z]?\d{1,3}(?:\.\d{1,3})?)\)\s*(.+)$`
applied with `re.match`. -/
def rangeMatch (line : String) : Option (String × String × String) :=
  match parseRCode line.data with
  | none => none
  | some (c1, r1) =>
    match r1.dropWhile pyIsSpace with
    | d :: r3 =>
      if d = '-' ∨ d = '–' then
        match parseRCode (r3.dropWhile pyIsSpace) with
        | some (c2, ')' :: r6) =>
          match captureRestG r6 with
          | some t => some (String.mk c1, String.mk c2, t)
          | none => none
        | _ => none
      else none
    | [] => none

/-- The source regex `section_pattern`: `^([A-Z])\)\s*(.+)$` applied with `re.match`. -/
def sectionMatch (line : String) : Option (String × String) :=
  match line.data with
  | c :: ')' :: rest =>
    if c.isUpper then
      match captureRestG rest with
      | some t => some (String.mk [c], t)
      | none => none
    else none
  | _ => none

/-- Literal string matcher: consumes `lit` from the front. -/
def matchLit : List Char → List Char → Option (List Char)
  | [], cs => some cs
  | l :: ls, c :: cs => if c = l then matchLit ls cs else none
  | _ :: _, [] => none

/-- The end `(?:\s*points?)?\)\s*$` of the item header pattern, after the
points digits.  Both ways of matching the optional group (with and without
the `s`) and skipping it entirely are tried, as backtracking would. -/
def itemAfterPts (u : List Char) : Bool :=
  let zero : Bool :=
    match u with
    | ')' :: w => w.all pyIsSpace
    | _ => false
  let word : Bool :=
    match matchLit ['p', 'o', 'i', 'n', 't'] (u.dropWhile pyIsSpace) with
    | some u2 =>
      (match u2 with
       | 's' :: ')' :: w => w.all pyIsSpace
       | ')' :: w => w.all pyIsSpace
       | _ => false)
    | none => false
  word ∨ zero

/-- The tail `\((\d+(?:\.\d+)?)(?:\s*points?)?\)\s*$` of the item header
pattern, returning the captured points group.  A dot not followed by a digit
leaves no live backtracking alternative, since neither `\s*points?` nor `\)`
can start at a dot. -/
def itemTailPts (cs : List Char) : Option String :=
  match cs with
  | '(' :: r =>
    let dp := r.span Char.isDigit
    if dp.1 = [] then none
    else
      match dp.2 with
      | '.' :: r2 =>
        let fp := r2.span Char.isDigit
        if fp.1 = [] then none
        else if itemAfterPts fp.2 then some (String.mk (dp.1 ++ '.' :: fp.1)) else none
      | _ => if itemAfterPts dp.2 then some (String.mk dp.1) else none
  | _ => none

/-- The lazy description search `(.+?)\s*\(...`: the shortest nonempty
description (none of whose characters is a newline) after which `\s*\(` and
the points tail match through to the end wins. -/
def descSearch (acc : List Char) : List Char → Option (String × String)
  | [] => none
  | c :: rest =>
    if c = '\n' then none
    else
      match itemTailPts (rest.dropWhile pyIsSpace) with
      | some pts => some (String.mk (acc ++ [c]), pts)
      | none => descSearch (acc ++ [c]) rest

/-- The source regex `item_pattern`:
`^([A-Z]\d{1,3}|\d+(?:\.\d+)?)\)\s*(.+?)\s*\((\d+(?:\.\d+)?)(?:\s*points?)?\)\s*$`
applied with `re.match`; returns the (code, description, points) groups.
For the code alternatives, the required `\)` right after the digits makes
maximal munch exact.  When everything between `\)` and the points tail is
whitespace, the greedy `\s*` gives its last character back to the lazy
`(.+?)`, so a single whitespace character can be captured as description. -/
def itemMatch (line : String) : Option (String × String × String) :=
  let code? : Option (List Char × List Char) :=
    match line.data with
    | c :: rest =>
      if c.isUpper then
        let dp := rest.span Char.isDigit
        if 1 ≤ dp.1.length ∧ dp.1.length ≤ 3 then
          match dp.2 with
          | ')' :: r2 => some (c :: dp.1, r2)
          | _ => none
        else none
      else
        let dp := line.data.span Char.isDigit
        if dp.1 = [] then none
        else
          match dp.2 with
          | '.' :: r2 =>
            let fp := r2.span Char.isDigit
            if fp.1 = [] then none
            else
              match fp.2 with
              | ')' :: r4 => some (dp.1 ++ '.' :: fp.1, r4)
              | _ => none
          | ')' :: r2 => some (dp.1, r2)
          | _ => none
    | [] => none
  match code? with
  | none => none
  | some (code, afterParen) =>
    let m := afterParen.dropWhile pyIsSpace
    match descSearch [] m with
    | some (desc, pts) => some (String.mk code, desc, pts)
    | none =>
      if m.length < afterParen.length then
        match itemTailPts m with
        | some pts =>
          match (afterParen.take (afterParen.length - m.length)).getLast? with
          | some c => some (String.mk code, String.mk [c], pts)
          | none => none
        | none => none
      else none

/-- The bullet check at line 155:
`re.match(r"^-?\s*\d+(?:\.\d+)?\s*:\s*", line.strip())` as a Boolean.  A dot
not followed by a digit leaves no live alternative, since `\s*:` cannot
start at a dot. -/
def hasScoreTag (line : String) : Bool :=
  let cs1 : List Char :=
    match line.data with
    | '-' :: r => r
    | l => l
  let dp := (cs1.dropWhile pyIsSpace).span Char.isDigit
  if dp.1 = [] then false
  else
    let r2 : Option (List Char) :=
      match dp.2 with
      | '.' :: rr =>
        let fp := rr.span Char.isDigit
        if fp.1 = [] then none else some fp.2
      | _ => some dp.2
    match r2 with
    | some r3 =>
      match r3.dropWhile pyIsSpace with
      | ':' :: _ => true
      | _ => false
    | none => false

/-- The source regex `score_line`: `^-?\s*(\d+(?:\.\d+)?)\s*:\s*(.+)$` applied with
`re.match`; returns the (number, text) groups. -/
def scoreLineMatch (line : String) : Option (String × String) :=
  let cs1 : List Char :=
    match line.data with
    | '-' :: r => r
    | l => l
  let dp := (cs1.dropWhile pyIsSpace).span Char.isDigit
  if dp.1 = [] then none
  else
    let numRest : Option (List Char × List Char) :=
      match dp.2 with
      | '.' :: rr =>
        let fp := rr.span Char.isDigit
        if fp.1 = [] then none else some (dp.1 ++ '.' :: fp.1, fp.2)
      | _ => some (dp.1, dp.2)
    match numRest with
    | none => none
    | some (num, r3) =>
      match r3.dropWhile pyIsSpace with
      | ':' :: r4 =>
        match captureRestG r4 with
        | some t => some (String.mk num, t)
        | none => none
      | _ => none

/-- One scoreable rubric unit, as in the `RubricItem` dataclass. -/
structure RubricItem where
  code : String
  description : String
  max_points : ℚ
  details : String
deriving DecidableEq

/-- Shared guidance for a contiguous span of item codes, as in the
`RangeBlock` dataclass. -/
structure RangeBlock where
  start_code : String
  end_code : String
  header : String
  details : String
deriving DecidableEq

/-- Assignment `d[k] = v` on an insertion ordered dict modeled as an association
list: an existing key keeps its position, a new key goes to the end. -/
def dictSet {β : Type} (d : List (String × β)) (k : String) (v : β) :
    List (String × β) :=
  if d.any (fun p => p.1 == k) then
    d.map (fun p => if p.1 == k then (k, v) else p)
  else d ++ [(k, v)]

/-- Lookup `d.get(k, v0)` on the association list model of a dict. -/
def dictGet {β : Type} (d : List (String × β)) (k : String) (v0 : β) : β :=
  match d.find? (fun p => p.1 == k) with
  | some p => p.2
  | none => v0

/-- The check `re.match(r"^[A-Z]", s)` as a Boolean. -/
def startsUpper (s : String) : Bool :=
  match s.data with
  | c :: _ => c.isUpper
  | [] => false

/-- The helper `_extract_score_bullets`: split free text into scoring tier bullets
(lines matching `score_line`, reformatted as `"N: text"`) and the residual
non-blank lines. -/
def extract_score_bullets (text : String) : List String × String :=
  if text = "" then ([], "")
  else
    let br := (pySplitlines text).foldl
      (fun (acc : List String × List String) (line : String) =>
        match scoreLineMatch (pyStrip line) with
        | some (num, rest) => (acc.1 ++ [num ++ ": " ++ pyStrip rest], acc.2)
        | none => (acc.1, acc.2 ++ [line]))
      ([], [])
    (br.1, pyStrip (joinNl (br.2.filter (fun l => pyStrip l ≠ ""))))

/-- The mutable accumulator variables of `parse_rubric_items`, gathered in
one parser state record. -/
structure PState where
  items : List RubricItem
  sections : List (String × String)
  range_blocks : List RangeBlock
  inherited_scoring : List (String × (List String × String))
  preamble_lines : List String
  seen_any_item : Bool
  pending_group_lines : List String
  pending_group_has_scores : Bool
  active_group_bullets : List String
  active_group_details : String

/-- The parser state at entry of the scanning loop. -/
def initPState : PState :=
  ⟨[], [], [], [], [], false, [], false, [], ""⟩

/-- The inner detail body loop shared by range blocks and items: consume
lines until one matches item header, section header, or (for range blocks
only) range header; blank lines are recorded as at most one empty separator
entry.  Returns the accumulated detail lines and the unconsumed rest. -/
def consumeDetailsAux (stopOnRange : Bool) (acc : List String) :
    List String → List String × List String
  | [] => (acc, [])
  | l :: rest =>
    let peek := pyStrip l
    if peek = "" then
      consumeDetailsAux stopOnRange
        (if acc = [] then acc else if acc.getLast? = some "" then acc else acc ++ [""])
        rest
    else if (itemMatch peek).isSome ∨ (sectionMatch peek).isSome ∨
        (stopOnRange ∧ (rangeMatch peek).isSome) then
      (acc, l :: rest)
    else
      consumeDetailsAux stopOnRange (acc ++ [peek]) rest

/-- The expression `"\n".join([line for line in detail_lines if line != ""]).strip()`. -/
def detailsOf (acc : List String) : String :=
  pyStrip (joinNl (acc.filter (fun l => l ≠ "")))

/-- The range header and item header branches plus the prose fallback of the
scanning loop, reached when the section branch did not fire; returns the new
state and the lines still to scan. -/
def parseStepTail (st : PState) (line : String) (rest : List String) :
    PState × List String :=
  match rangeMatch line with
  | some (sc, ec, title) =>
    let ec2 :=
      if startsUpper sc ∧ ¬ startsUpper ec then String.mk (sc.data.take 1 ++ ec.data)
      else ec
    let header := sc ++ "–" ++ ec2 ++ ") " ++ pyStrip title
    let dr := consumeDetailsAux true [] rest
    ({ st with
        range_blocks := st.range_blocks ++ [⟨sc, ec2, header, detailsOf dr.1⟩],
        seen_any_item := true,
        pending_group_lines := [], pending_group_has_scores := false,
        active_group_bullets := [], active_group_details := "" },
     dr.2)
  | none =>
    match itemMatch line with
    | some (code, desc, pts) =>
      let st1 :=
        if st.pending_group_has_scores then
          let bd := extract_score_bullets (pyStrip (joinNl st.pending_group_lines))
          { st with active_group_bullets := bd.1, active_group_details := bd.2,
                    pending_group_lines := [], pending_group_has_scores := false }
        else st
      let dr := consumeDetailsAux false [] rest
      ({ st1 with
          items := st1.items ++ [⟨code, pyStrip desc, parseDecimal pts, detailsOf dr.1⟩],
          seen_any_item := true,
          inherited_scoring :=
            if st1.active_group_bullets ≠ [] ∨ st1.active_group_details ≠ "" then
              dictSet st1.inherited_scoring code
                (st1.active_group_bullets, st1.active_group_details)
            else st1.inherited_scoring },
       dr.2)
    | none =>
      (if st.seen_any_item then
        { st with pending_group_lines := st.pending_group_lines ++ [line],
                  pending_group_has_scores :=
                    st.pending_group_has_scores ∨ hasScoreTag (pyStrip line) }
      else { st with preamble_lines := st.preamble_lines ++ [line] },
       rest)

/-- One full classification step of the scanning loop on a nonempty stripped
line, in source order: section header (unless the line is also an item
header), then range header, then item header, then prose. -/
def parseStep (st : PState) (line : String) (rest : List String) :
    PState × List String :=
  match sectionMatch line with
  | some (sc, title) =>
    if (itemMatch line).isNone then
      ({ st with
          sections := dictSet st.sections sc (pyStrip title),
          seen_any_item := true,
          pending_group_lines := [], pending_group_has_scores := false,
          active_group_bullets := [], active_group_details := "" },
       rest)
    else parseStepTail st line rest
  | none => parseStepTail st line rest

/-- The `while idx < len(lines)` scanning loop, fueled; every iteration
consumes at least one line, so fuel equal to the number of lines suffices. -/
def parseLoopF : Nat → PState → List String → PState
  | 0, st, _ => st
  | _ + 1, st, [] => st
  | fuel + 1, st, l :: rest =>
    let line := pyStrip l
    if line = "" then parseLoopF fuel st rest
    else
      let sr := parseStep st line rest
      parseLoopF fuel sr.1 sr.2

/-- The parser `parse_rubric_items`: scan the right-stripped lines of `text` and return
(items, sections, range blocks, inherited scoring, preamble). -/
def parse_rubric_items (text : String) :
    List RubricItem × List (String × String) × List RangeBlock ×
      List (String × (List String × String)) × String :=
  let lines := (pySplitlines text).map pyRstrip
  let st := parseLoopF lines.length initPState lines
  (st.items, st.sections, st.range_blocks, st.inherited_scoring,
   pyStrip (joinNl st.preamble_lines))

instance instDecEqParseResult :
    DecidableEq (List RubricItem × List (String × String) × List RangeBlock ×
      List (String × (List String × String)) × String) :=
  @instDecidableEqProd _ _ _
    (@instDecidableEqProd _ _ _
      (@instDecidableEqProd _ _ _
        (@instDecidableEqProd _ _ _ _)))

/-- The helper `_code_parts`: decompose a code into a section key and trailing
number. -/
def code_parts (code : String) : String × Nat :=
  if startsUpper code then
    (String.mk (code.data.take 1), natOfDigits ((code.data.drop 1).filter Char.isDigit))
  else if code.data.contains '.' then
    let pre := code.data.takeWhile (fun c => c ≠ '.')
    let post := (code.data.dropWhile (fun c => c ≠ '.')).drop 1
    (String.mk pre, natOfDigits (post.filter Char.isDigit))
  else
    let numeric := code.data.filter Char.isDigit
    (if numeric ≠ [] then String.mk numeric else code, 0)

/-- The helper `_find_range_block`: the first range block whose decomposed start and
end keys both equal the key of `code` and whose number span contains the
number of `code`.  The list of blocks, a global in the source, is passed
explicitly. -/
def find_range_block (range_blocks : List RangeBlock) (code : String) :
    Option RangeBlock :=
  let ln := code_parts code
  range_blocks.find? (fun block =>
    let sp := code_parts block.start_code
    let ep := code_parts block.end_code
    decide (ln.1 = sp.1 ∧ ln.1 = ep.1 ∧ sp.2 ≤ ln.2 ∧ ln.2 ≤ ep.2))

/-- The report builder `format_output`: the report string.  The scores and explanations dicts
are modeled as `Option` valued lookups, `dict.get` with its default built
in. -/
def format_output (items : List RubricItem) (scores : String → Option ℚ)
    (explanations : String → Option String) : String :=
  let total_obtained := (items.map (fun it => (scores it.code).getD 0)).sum
  let total_possible := (items.map (fun it => it.max_points)).sum
  let ls :=
    ["Total: " ++ pyFormatG total_obtained ++ "/" ++ pyFormatG total_possible, ""]
      ++ items.flatMap (fun it =>
        [it.code ++ ": " ++ pyFormatG ((scores it.code).getD 0) ++ "/" ++
            pyFormatG it.max_points,
          "Explanation: " ++ pyStrip ((explanations it.code).getD ""),
          ""])
  pyStrip (joinNl ls) ++ "\n"

/-- Python `chr`: defined for code points in `[0, 0x10FFFF]` (lone
surrogates included), a `ValueError` otherwise. -/
def pychr (n : Int) : Option Nat :=
  if 0 ≤ n ∧ n ≤ 0x10FFFF then some n.toNat else none

/-- ASCII digit test on a code point. -/
def isDigitN (c : Nat) : Bool := decide (48 ≤ c ∧ c ≤ 57)

/-- ASCII letter test on a code point. -/
def isAsciiLetterN (c : Nat) : Bool :=
  decide ((65 ≤ c ∧ c ≤ 90) ∨ (97 ≤ c ∧ c ≤ 122))

/-- ASCII hex digit test on a code point. -/
def isHexDigitN (c : Nat) : Bool :=
  decide ((48 ≤ c ∧ c ≤ 57) ∨ (97 ≤ c ∧ c ≤ 102) ∨ (65 ≤ c ∧ c ≤ 70))

/-- Value of an ASCII hex digit. -/
def hexVal (c : Nat) : Nat :=
  if 48 ≤ c ∧ c ≤ 57 then c - 48 else if 97 ≤ c then c - 87 else c - 55

/-- Numeric value of a list of ASCII digit code points. -/
def digitsValN (ds : List Nat) : Nat := ds.foldl (fun a c => 10 * a + (c - 48)) 0

/-- The cp1252 codec on one byte: identity outside `0x80`–`0x9F`, the
Windows-1252 table inside it, undefined (`none`) on the five unmapped
bytes. -/
def cp1252Byte (b : Nat) : Option Nat :=
  if b = 0x81 ∨ b = 0x8D ∨ b = 0x8F ∨ b = 0x90 ∨ b = 0x9D then none
  else if b = 0x80 then some 0x20AC
  else if b = 0x82 then some 0x201A
  else if b = 0x83 then some 0x0192
  else if b = 0x84 then some 0x201E
  else if b = 0x85 then some 0x2026
  else if b = 0x86 then some 0x2020
  else if b = 0x87 then some 0x2021
  else if b = 0x88 then some 0x02C6
  else if b = 0x89 then some 0x2030
  else if b = 0x8A then some 0x0160
  else if b = 0x8B then some 0x2039
  else if b = 0x8C then some 0x0152
  else if b = 0x8E then some 0x017D
  else if b = 0x91 then some 0x2018
  else if b = 0x92 then some 0x2019
  else if b = 0x93 then some 0x201C
  else if b = 0x94 then some 0x201D
  else if b = 0x95 then some 0x2022
  else if b = 0x96 then some 0x2013
  else if b = 0x97 then some 0x2014
  else if b = 0x98 then some 0x02DC
  else if b = 0x99 then some 0x2122
  else if b = 0x9A then some 0x0161
  else if b = 0x9B then some 0x203A
  else if b = 0x9C then some 0x0153
  else if b = 0x9E then some 0x017E
  else if b = 0x9F then some 0x0178
  else some b

/-- Step 1 of `rtf_to_text`: `re.sub(r"\\\r?\n", "\n", ...)`.  Where no
match starts, one character is emitted and scanning continues, as `re.sub`
scans. -/
def subLineCont : List Nat → List Nat
  | [] => []
  | 92 :: 13 :: 10 :: t => 10 :: subLineCont t
  | 92 :: 10 :: t => 10 :: subLineCont t
  | c :: r => c :: subLineCont r

/-- Step 2 of `rtf_to_text`: `re.sub(r"\\par[d]?|\\line", "\n", ...)`; the
alternation tries `\par` with its optional `d` first. -/
def subPar : List Nat → List Nat
  | [] => []
  | 92 :: 112 :: 97 :: 114 :: 100 :: t => 10 :: subPar t
  | 92 :: 112 :: 97 :: 114 :: t => 10 :: subPar t
  | 92 :: 108 :: 105 :: 110 :: 101 :: t => 10 :: subPar t
  | c :: r => c :: subPar r

/-- The escape body `u(-?\d+)\??` after a backslash: signed decimal value
and the rest of the input after the optional `?` placeholder, or `none`
when no escape starts here. -/
def uniParse (r : List Nat) : Option (Int × List Nat) :=
  match r with
  | 117 :: r1 =>
    let sr : Bool × List Nat :=
      match r1 with
      | 45 :: t => (true, t)
      | _ => (false, r1)
    let dp := sr.2.span isDigitN
    if dp.1 = [] then none
    else
      let n : Int := if sr.1 then -(digitsValN dp.1 : Int) else (digitsValN dp.1 : Int)
      some (n,
        match dp.2 with
        | 63 :: t => t
        | t => t)
  | _ => none

/-- Step 3 of `rtf_to_text`: `re.sub(r"\\u(-?\d+)\??", _unicode_repl, ...)`
where `_unicode_repl` calls `chr(int(...))`; `chr` propagates a
`ValueError` out of `re.sub` (`none`).  Fueled: each step consumes at least
one element. -/
def subUnicodeF : Nat → List Nat → Option (List Nat)
  | 0, l => some l
  | _ + 1, [] => some []
  | fuel + 1, c :: r =>
    if c = 92 then
      match uniParse r with
      | some (n, r4) =>
        (match pychr n with
        | some cp => (fun t => cp :: t) <$> subUnicodeF fuel r4
        | none => none)
      | none => (fun t => 92 :: t) <$> subUnicodeF fuel r
    else (fun t => c :: t) <$> subUnicodeF fuel r

/-- Step 3 of `rtf_to_text` with enough fuel. -/
def subUnicode (l : List Nat) : Option (List Nat) := subUnicodeF l.length l

/-- The escape body `'HH` after a backslash: the cp1252 decoding of the hex
byte (`none` inside the pair for the five bytes `errors="ignore"` drops) and
the rest of the input, or `none` when no escape starts here. -/
def hexParse (r : List Nat) : Option (Option Nat × List Nat) :=
  match r with
  | 39 :: h1 :: h2 :: t =>
    if isHexDigitN h1 ∧ isHexDigitN h2 then
      some (cp1252Byte (16 * hexVal h1 + hexVal h2), t)
    else none
  | _ => none

/-- Step 4 of `rtf_to_text`: `re.sub(r"\\'([0-9a-fA-F]{2})", _hex_repl, ...)`
where `_hex_repl` decodes the byte as cp1252 with `errors="ignore"`, so an
unmapped byte is dropped.  Fueled: each step consumes at least one
element. -/
def subHexF : Nat → List Nat → List Nat
  | 0, l => l
  | _ + 1, [] => []
  | fuel + 1, c :: r =>
    if c = 92 then
      match hexParse r with
      | some (some cp, t) => cp :: subHexF fuel t
      | some (none, t) => subHexF fuel t
      | none => 92 :: subHexF fuel r
    else c :: subHexF fuel r

/-- Step 4 of `rtf_to_text` with enough fuel. -/
def subHex (l : List Nat) : List Nat := subHexF l.length l

/-- Step 5 of `rtf_to_text`: `re.sub(r"\\[a-zA-Z]+-?\d* ?", "", ...)`.
All the trailing subpatterns are optional or starred, so maximal munch is
exact.  Fueled: each step consumes at least one element. -/
def subCtrlF : Nat → List Nat → List Nat
  | 0, l => l
  | _ + 1, [] => []
  | fuel + 1, c :: r =>
    if c = 92 then
      let lp := r.span isAsciiLetterN
      if lp.1 = [] then 92 :: subCtrlF fuel r
      else
        let r2 : List Nat :=
          match lp.2 with
          | 45 :: t => t
          | t => t
        let r3 := r2.dropWhile isDigitN
        let r4 : List Nat :=
          match r3 with
          | 32 :: t => t
          | t => t
        subCtrlF fuel r4
    else c :: subCtrlF fuel r

/-- Step 5 of `rtf_to_text` with enough fuel. -/
def subCtrl (l : List Nat) : List Nat := subCtrlF l.length l

/-- Step 6 of `rtf_to_text`: `re.sub(r"[{}]", "", ...)`. -/
def subBraces (l : List Nat) : List Nat :=
  l.filter (fun c => decide (c ≠ 123 ∧ c ≠ 125))

/-- Step 7 of `rtf_to_text`: `re.sub(r"[ \t]+", " ", ...)`; the flag records
being inside a run that has already emitted its single space. -/
def subSpacesM : Bool → List Nat → List Nat
  | _, [] => []
  | inRun, c :: r =>
    if c = 32 ∨ c = 9 then
      if inRun then subSpacesM true r else 32 :: subSpacesM true r
    else c :: subSpacesM false r

/-- Step 7 of `rtf_to_text`. -/
def subSpaces (l : List Nat) : List Nat := subSpacesM false l

/-- Step 8 of `rtf_to_text`: `re.sub(r"\n{3,}", "\n\n", ...)`; the flag
records being inside a collapsed newline run. -/
def subNewlinesM : Bool → List Nat → List Nat
  | _, [] => []
  | true, 10 :: r => subNewlinesM true r
  | true, c :: r => c :: subNewlinesM false r
  | false, 10 :: 10 :: 10 :: r => 10 :: 10 :: subNewlinesM true r
  | false, c :: r => c :: subNewlinesM false r

/-- Step 8 of `rtf_to_text`. -/
def subNewlines (l : List Nat) : List Nat := subNewlinesM false l

/-- Python `str.strip()` on a list of code points. -/
def stripN (l : List Nat) : List Nat :=
  ((l.dropWhile pyIsSpaceN).reverse.dropWhile pyIsSpaceN).reverse

/-- The decoder `rtf_to_text`: the eight step substitution pipeline over code points;
`none` models the `ValueError` that `chr` can raise inside step 3. -/
def rtf_to_text (rtf : List Nat) : Option (List Nat) :=
  match subUnicode (subPar (subLineCont rtf)) with
  | none => none
  | some t3 =>
    some (stripN (subNewlines (subSpaces (subBraces (subCtrl (subHex t3))))))

/-- Strict UTF-8 decoding of a byte sequence: rejects overlong encodings,
surrogates, values beyond `0x10FFFF` and truncated sequences, exactly as
`bytes.decode("utf-8")` does. -/
def utf8DecodeStrict : List Nat → Option (List Nat)
  | [] => some []
  | b :: r =>
    if b ≤ 0x7F then (fun t => b :: t) <$> utf8DecodeStrict r
    else if 0xC2 ≤ b ∧ b ≤ 0xDF then
      match r with
      | c1 :: r1 =>
        if 0x80 ≤ c1 ∧ c1 ≤ 0xBF then
          (fun t => ((b - 0xC0) * 64 + (c1 - 0x80)) :: t) <$> utf8DecodeStrict r1
        else none
      | [] => none
    else if 0xE0 ≤ b ∧ b ≤ 0xEF then
      match r with
      | c1 :: c2 :: r2 =>
        let lo1 : Nat := if b = 0xE0 then 0xA0 else 0x80
        let hi1 : Nat := if b = 0xED then 0x9F else 0xBF
        if (lo1 ≤ c1 ∧ c1 ≤ hi1) ∧ (0x80 ≤ c2 ∧ c2 ≤ 0xBF) then
          (fun t => ((b - 0xE0) * 4096 + (c1 - 0x80) * 64 + (c2 - 0x80)) :: t) <$>
            utf8DecodeStrict r2
        else none
      | _ => none
    else if 0xF0 ≤ b ∧ b ≤ 0xF4 then
      match r with
      | c1 :: c2 :: c3 :: r3 =>
        let lo1 : Nat := if b = 0xF0 then 0x90 else 0x80
        let hi1 : Nat := if b = 0xF4 then 0x8F else 0xBF
        if (lo1 ≤ c1 ∧ c1 ≤ hi1) ∧ (0x80 ≤ c2 ∧ c2 ≤ 0xBF) ∧ (0x80 ≤ c3 ∧ c3 ≤ 0xBF) then
          (fun t =>
            ((b - 0xF0) * 262144 + (c1 - 0x80) * 4096 + (c2 - 0x80) * 64 + (c3 - 0x80)) :: t) <$>
            utf8DecodeStrict r3
        else none
      | _ => none
    else none

/-- Strict `bytes.decode("cp1252")`: per byte through the cp1252 table,
failing on the five unmapped bytes. -/
def cp1252DecodeStrict : List (Fin 256) → Option (List Nat)
  | [] => some []
  | b :: r =>
    match cp1252Byte b.val with
    | some cp => (fun t => cp :: t) <$> cp1252DecodeStrict r
    | none => none

/-- Strict `bytes.decode("latin-1")`: every byte maps to the code point of
the same value; the codec has no unmapped bytes. -/
def latin1DecodeStrict : List (Fin 256) → Option (List Nat)
  | [] => some []
  | b :: r => (fun t => b.val :: t) <$> latin1DecodeStrict r

/-- Lossy `bytes.decode("utf-8", errors="ignore")`: like the strict decoder but
skipping a byte whenever no valid sequence starts at it.  This branch of
`_decode_bytes` is unreachable (see `decode_bytes_never_lossy`); the skip
granularity of the error handler is therefore modeled approximately.
Fueled: each step consumes at least one byte. -/
def utf8DecodeIgnoreF : Nat → List Nat → List Nat
  | 0, _ => []
  | _ + 1, [] => []
  | fuel + 1, b :: r =>
    if b ≤ 0x7F then b :: utf8DecodeIgnoreF fuel r
    else if 0xC2 ≤ b ∧ b ≤ 0xDF then
      match r with
      | c1 :: r1 =>
        if 0x80 ≤ c1 ∧ c1 ≤ 0xBF then
          ((b - 0xC0) * 64 + (c1 - 0x80)) :: utf8DecodeIgnoreF fuel r1
        else utf8DecodeIgnoreF fuel r
      | [] => []
    else utf8DecodeIgnoreF fuel r

/-- The byte decoder `_decode_bytes`: try utf-8, cp1252, latin-1 in order, with a lossy utf-8
decode as the final fallback. -/
def decode_bytes (raw : List (Fin 256)) : List Nat :=
  match utf8DecodeStrict (raw.map Fin.val) with
  | some s => s
  | none =>
    match cp1252DecodeStrict raw with
    | some s => s
    | none =>
      match latin1DecodeStrict raw with
      | some s => s
      | none => utf8DecodeIgnoreF raw.length (raw.map Fin.val)

/-! ## Theorems -/

/-- C2: the claim that `rtf_to_text` never raises fails on the code: the
unicode escape `\u-5?` is matched (the capture deliberately allows a sign),
but `chr(-5)` raises `ValueError`, which propagates out of `re.sub` and out
of `rtf_to_text` (modeled as `none`).  A nonnegative escape such as `\u65?`
is replaced by the corresponding character as the claim describes. -/
theorem rtf_to_text_negative_unicode_escape_raises :
    rtf_to_text [92, 117, 45, 53, 63] = none ∧
    rtf_to_text [92, 117, 54, 53, 63] = some [65] :=
  ⟨by decide, by decide⟩

set_option maxRecDepth 8000000 in
/-- C9: the inherited scoring scenario.  After a recognized header, the
ungrouped bullet lines `0: no attempt`, `3: partial`, `5: full` immediately
preceding the item header `A1` become the inherited scoring entry of `A1`
with empty residual text; the same entry is attached to the immediately
following item `A2`; and the next section header resets the active entry,
so the later item `B1` gets none. -/
theorem inherited_scoring_scenario :
    parse_rubric_items
        "A) Sec\n0: no attempt\n3: partial\n5: full\nA1) One (5)\nA2) Two (3)\nB) Reset\nB1) Three (2)" =
      ([⟨"A1", "One", 5, ""⟩, ⟨"A2", "Two", 3, ""⟩, ⟨"B1", "Three", 2, ""⟩],
        [("A", "Sec"), ("B", "Reset")], [],
        [("A1", (["0: no attempt", "3: partial", "5: full"], "")),
          ("A2", (["0: no attempt", "3: partial", "5: full"], ""))], "") := by
  with_unfolding_all decide

/-- C6: an item code matches a range block exactly when its decomposed key
equals the keys of both endpoints and its number lies in the inclusive span;
concretely, for a block with endpoints `A1` and `A3` the codes `A1`, `A2`,
`A3` are contained while `A4` and `B1` are not. -/
theorem range_containment :
    (∀ (code : String) (b : RangeBlock),
        find_range_block [b] code = some b ↔
          ((code_parts code).1 = (code_parts b.start_code).1 ∧
            (code_parts code).1 = (code_parts b.end_code).1 ∧
            (code_parts b.start_code).2 ≤ (code_parts code).2 ∧
            (code_parts code).2 ≤ (code_parts b.end_code).2)) ∧
    (find_range_block [⟨"A1", "A3", "h", "d"⟩] "A1" = some ⟨"A1", "A3", "h", "d"⟩ ∧
      find_range_block [⟨"A1", "A3", "h", "d"⟩] "A2" = some ⟨"A1", "A3", "h", "d"⟩ ∧
      find_range_block [⟨"A1", "A3", "h", "d"⟩] "A3" = some ⟨"A1", "A3", "h", "d"⟩ ∧
      find_range_block [⟨"A1", "A3", "h", "d"⟩] "A4" = none ∧
      find_range_block [⟨"A1", "A3", "h", "d"⟩] "B1" = none) := by
  refine ⟨fun code b => ?_, by decide, by decide, by decide, by decide, by decide⟩
  simp only [find_range_block, List.find?]
  cases hd : decide ((code_parts code).1 = (code_parts b.start_code).1 ∧
      (code_parts code).1 = (code_parts b.end_code).1 ∧
      (code_parts b.start_code).2 ≤ (code_parts code).2 ∧
      (code_parts code).2 ≤ (code_parts b.end_code).2) with
  | false => exact iff_of_false (fun h => Option.noConfusion h) (of_decide_eq_false hd)
  | true => exact iff_of_true rfl (of_decide_eq_true hd)

set_option maxRecDepth 8000000 in
/-- C3 counterexample: the header line `1) Foo (3.25)` is accepted by the
item pattern with the two decimal place value `3.25`, and `10 * 3.25` is not
an integer, so not every parsed item has an integral or one decimal place
`max_points`. -/
theorem max_points_one_decimal_counterexample :
    parse_rubric_items "1) Foo (3.25)" =
      ([⟨"1", "Foo", (13 : ℚ) / 4, ""⟩], [], [], [], "") ∧
    ((13 : ℚ) / 4 * 10).den ≠ 1 :=
  ⟨by with_unfolding_all decide, by with_unfolding_all decide⟩

set_option maxRecDepth 100000 in
/-- C4 counterexample: in the range body `a`, blank, `b`, the blank run is
not preserved as a separator line in the stored details; the details filter
removes the collapsed empty entry, leaving `a\nb`, not `a\n\nb`. -/
theorem range_details_blank_counterexample :
    parse_rubric_items "1-2) Title\na\n\nb" =
      ([], [], [⟨"1", "2", "1–2) Title", "a\nb"⟩], [], "") ∧
    "a\nb" ≠ "a\n\nb" :=
  ⟨by decide, by decide⟩

/-- C10: `_decode_bytes` never reaches its lossy fallback: latin-1 strict
decoding succeeds on every byte string, mapping each byte to the code point
of the same value, so the result is always one of the three strict decodes
and no byte is dropped. -/
theorem decode_bytes_never_lossy (raw : List (Fin 256)) :
    decode_bytes raw =
      (utf8DecodeStrict (raw.map Fin.val)).getD
        ((cp1252DecodeStrict raw).getD (raw.map Fin.val)) := by
  have hl : latin1DecodeStrict raw = some (raw.map Fin.val) := by
    induction raw with
    | nil => rfl
    | cons b r ih => simp [latin1DecodeStrict, ih]
  unfold decode_bytes
  rw [hl]
  cases h1 : utf8DecodeStrict (raw.map Fin.val) <;>
    cases h2 : cp1252DecodeStrict raw <;> simp

lemma subLineCont_of_no_backslash (l : List Nat) (h : 92 ∉ l) :
    subLineCont l = l := by
  induction l using subLineCont.induct with
  | case1 => rfl
  | case2 t ih => exact absurd (by simp) h
  | case3 t ih => exact absurd (by simp) h
  | case4 c r h1 h2 ih =>
    simp only [List.mem_cons, not_or] at h
    rw [subLineCont, ih h.2]
    · exact h1
    · exact h2

lemma subPar_of_no_backslash (l : List Nat) (h : 92 ∉ l) :
    subPar l = l := by
  induction l using subPar.induct with
  | case1 => rfl
  | case2 t ih => exact absurd (by simp) h
  | case3 t ih => exact absurd (by simp) h
  | case4 t ih => exact absurd (by simp) h
  | case5 c r h1 h2 h3 ih =>
    simp only [List.mem_cons, not_or] at h
    rw [subPar, ih h.2]
    · exact h1
    · exact h2
    · exact h3

lemma subUnicodeF_of_no_backslash (fuel : Nat) (l : List Nat) (h : 92 ∉ l) :
    subUnicodeF fuel l = some l := by
  induction fuel generalizing l with
  | zero => rfl
  | succ fuel ih =>
    match l with
    | [] => rfl
    | c :: r =>
      simp only [List.mem_cons, not_or] at h
      rw [subUnicodeF, if_neg (fun hc => h.1 hc.symm), ih r h.2]
      rfl

lemma subHexF_of_no_backslash (fuel : Nat) (l : List Nat) (h : 92 ∉ l) :
    subHexF fuel l = l := by
  induction fuel generalizing l with
  | zero => rfl
  | succ fuel ih =>
    match l with
    | [] => rfl
    | c :: r =>
      simp only [List.mem_cons, not_or] at h
      rw [subHexF, if_neg (fun hc => h.1 hc.symm), ih r h.2]

lemma subCtrlF_of_no_backslash (fuel : Nat) (l : List Nat) (h : 92 ∉ l) :
    subCtrlF fuel l = l := by
  induction fuel generalizing l with
  | zero => rfl
  | succ fuel ih =>
    match l with
    | [] => rfl
    | c :: r =>
      simp only [List.mem_cons, not_or] at h
      rw [subCtrlF, if_neg (fun hc => h.1 hc.symm), ih r h.2]

lemma subBraces_of_no_braces (l : List Nat) (h1 : 123 ∉ l) (h2 : 125 ∉ l) :
    subBraces l = l := by
  rw [subBraces, List.filter_eq_self]
  intro c hc
  exact decide_eq_true ⟨fun e => h1 (e ▸ hc), fun e => h2 (e ▸ hc)⟩

/-- C8: on input with no backslash and no brace (in particular plain ASCII
text free of RTF control syntax), the decoder is exactly whitespace
normalization: runs of spaces and tabs collapse to one space, runs of three
or more newlines collapse to two, and the ends are stripped; consequently
an input already in that normal form is returned unchanged. -/
theorem rtf_plain_text_normalizes (l : List Nat)
    (_ha : ∀ c ∈ l, c < 128) (hb : 92 ∉ l) (hob : 123 ∉ l) (hcb : 125 ∉ l) :
    rtf_to_text l = some (stripN (subNewlines (subSpaces l))) ∧
    (l = stripN (subNewlines (subSpaces l)) → rtf_to_text l = some l) := by
  have hmain : rtf_to_text l = some (stripN (subNewlines (subSpaces l))) := by
    simp only [rtf_to_text, subUnicode, subCtrl, subHex,
      subLineCont_of_no_backslash l hb, subPar_of_no_backslash l hb,
      subUnicodeF_of_no_backslash l.length l hb,
      subHexF_of_no_backslash l.length l hb,
      subCtrlF_of_no_backslash l.length l hb,
      subBraces_of_no_braces l hob hcb]
  exact ⟨hmain, fun he => by rw [hmain, ← he]⟩

/-- Witness for C8 at the concrete input `ab  \tc\n\n\n\nd ` (code points):
the hypotheses hold and the decoder output is the normalized text
`ab c\n\nd`. -/
theorem rtf_plain_text_normalizes_witness :
    (∀ c ∈ ([97, 98, 32, 32, 9, 99, 10, 10, 10, 10, 100, 32] : List Nat), c < 128) ∧
    rtf_to_text [97, 98, 32, 32, 9, 99, 10, 10, 10, 10, 100, 32] =
      some (stripN (subNewlines (subSpaces [97, 98, 32, 32, 9, 99, 10, 10, 10, 10, 100, 32]))) ∧
    stripN (subNewlines (subSpaces [97, 98, 32, 32, 9, 99, 10, 10, 10, 10, 100, 32])) =
      [97, 98, 32, 99, 10, 10, 100] :=
  ⟨by decide,
    (rtf_plain_text_normalizes _ (by decide) (by decide) (by decide) (by decide)).1,
    by decide⟩

lemma list_flatMap_congr {α β : Type} {l : List α} {f g : α → List β}
    (h : ∀ a ∈ l, f a = g a) : l.flatMap f = l.flatMap g := by
  induction l with
  | nil => rfl
  | cons a t ih =>
    simp only [List.flatMap_cons]
    rw [h a (by simp), ih (fun x hx => h x (by simp [hx]))]

/-- C1: when every item scores its own maximum (under the dict lookup with
default, so the hypothesis is on the looked-up value), the report is the
exact line structure in which the first line is `Total: S/S` with `S` the
sum of all `max_points` in compact `%g` form, and each item contributes, in
encounter order, a line `code: max/max` with the same compact form. -/
theorem format_output_round_trip (items : List RubricItem)
    (scores : String → Option ℚ) (explanations : String → Option String)
    (h : ∀ it ∈ items, (scores it.code).getD 0 = it.max_points) :
    format_output items scores explanations =
      pyStrip (joinNl (
        ["Total: " ++ pyFormatG ((items.map (fun it => it.max_points)).sum) ++ "/" ++
            pyFormatG ((items.map (fun it => it.max_points)).sum), ""] ++
        items.flatMap (fun it =>
          [it.code ++ ": " ++ pyFormatG it.max_points ++ "/" ++ pyFormatG it.max_points,
            "Explanation: " ++ pyStrip ((explanations it.code).getD ""), ""]))) ++ "\n" := by
  have hm : items.map (fun it => (scores it.code).getD 0) =
      items.map (fun it => it.max_points) :=
    List.map_congr_left h
  have hf : items.flatMap (fun it =>
        [it.code ++ ": " ++ pyFormatG ((scores it.code).getD 0) ++ "/" ++
            pyFormatG it.max_points,
          "Explanation: " ++ pyStrip ((explanations it.code).getD ""), ""]) =
      items.flatMap (fun it =>
        [it.code ++ ": " ++ pyFormatG it.max_points ++ "/" ++ pyFormatG it.max_points,
          "Explanation: " ++ pyStrip ((explanations it.code).getD ""), ""]) :=
    list_flatMap_congr (fun a ha => by rw [h a ha])
  simp only [format_output, hm, hf]

/-- Witness for C1 at one item `A1` with maximum 5 scored 5: the round trip
theorem applies, and the report evaluates to `Total: 5/5`, a blank line, and
the item line `A1: 5/5`. -/
theorem format_output_round_trip_witness :
    format_output [⟨"A1", "d", (5 : ℚ), ""⟩]
        (fun c => if c = "A1" then some 5 else none) (fun _ => none) =
      pyStrip (joinNl (
        ["Total: " ++
            pyFormatG ((([⟨"A1", "d", (5 : ℚ), ""⟩] : List RubricItem).map
              (fun it => it.max_points)).sum) ++ "/" ++
            pyFormatG ((([⟨"A1", "d", (5 : ℚ), ""⟩] : List RubricItem).map
              (fun it => it.max_points)).sum), ""] ++
        ([⟨"A1", "d", (5 : ℚ), ""⟩] : List RubricItem).flatMap (fun it =>
          [it.code ++ ": " ++ pyFormatG it.max_points ++ "/" ++ pyFormatG it.max_points,
            "Explanation: " ++
              pyStrip (((fun _ => none : String → Option String) it.code).getD ""),
            ""]))) ++ "\n" ∧
    format_output [⟨"A1", "d", (5 : ℚ), ""⟩]
        (fun c => if c = "A1" then some 5 else none) (fun _ => none) =
      "Total: 5/5\n\nA1: 5/5\nExplanation:\n" :=
  ⟨format_output_round_trip _ _ _ (by intro it hit; fin_cases hit; with_unfolding_all decide),
    by with_unfolding_all decide⟩

lemma dropWhile_dropWhile {α : Type} (p : α → Bool) (l : List α) :
    (l.dropWhile p).dropWhile p = l.dropWhile p := by
  induction l with
  | nil => rfl
  | cons c r ih =>
    by_cases h : p c
    · simp [List.dropWhile_cons, h, ih]
    · simp [List.dropWhile_cons, h]

lemma data_mk (l : List Char) : (String.mk l).data = l := rfl

lemma pyRstrip_idem (s : String) : pyRstrip (pyRstrip s) = pyRstrip s := by
  simp [pyRstrip, data_mk, List.reverse_reverse, dropWhile_dropWhile]

lemma pyStrip_rstrip (s : String) : pyStrip (pyRstrip s) = pyStrip s := by
  rw [pyStrip, pyRstrip_idem, pyStrip]

lemma parseDecimal_shape (s : String) :
    ∃ n k : Nat, parseDecimal s = (n : ℚ) / 10 ^ k := by
  simp only [parseDecimal]
  rcases hm : (List.span Char.isDigit s.data).2 with _ | ⟨c, r2⟩
  · exact ⟨natOfDigits (List.span Char.isDigit s.data).1, 0, by simp⟩
  · by_cases hc : c = '.'
    · subst hc
      exact ⟨natOfDigits (List.span Char.isDigit s.data).1 * 10 ^ r2.length +
          natOfDigits r2, r2.length, rfl⟩
    · refine ⟨natOfDigits (List.span Char.isDigit s.data).1, 0, ?_⟩
      split
      · rename_i r2x heq
        injection heq with h1 h2
        exact absurd h1 hc
      · simp

lemma parseStepTail_items (st : PState) (line : String) (rest : List String) :
    ∀ it ∈ (parseStepTail st line rest).1.items,
      it ∈ st.items ∨ ∃ s : String, it.max_points = parseDecimal s := by
  intro it hit
  unfold parseStepTail at hit
  rcases hr : rangeMatch line with _ | ⟨sc, ec, title⟩ <;> rw [hr] at hit
  case some => exact Or.inl hit
  case none =>
    rcases hi : itemMatch line with _ | ⟨code, desc, pts⟩ <;> rw [hi] at hit
    case none =>
      by_cases hseen : st.seen_any_item <;> simp only [hseen, if_pos, if_neg,
        Bool.false_eq_true, if_false, if_true] at hit <;> exact Or.inl hit
    case some =>
      by_cases hp : st.pending_group_has_scores <;>
        simp only [hp, if_pos, if_neg, Bool.false_eq_true, if_false, if_true] at hit <;>
        rcases List.mem_append.mp hit with hold | hnew
      · exact Or.inl hold
      · exact Or.inr ⟨pts, by rw [List.mem_singleton.mp hnew]⟩
      · exact Or.inl hold
      · exact Or.inr ⟨pts, by rw [List.mem_singleton.mp hnew]⟩

lemma parseStep_items (st : PState) (line : String) (rest : List String) :
    ∀ it ∈ (parseStep st line rest).1.items,
      it ∈ st.items ∨ ∃ s : String, it.max_points = parseDecimal s := by
  intro it hit
  unfold parseStep at hit
  rcases hsec : sectionMatch line with _ | p <;> rw [hsec] at hit
  case some =>
    by_cases hi : (itemMatch line).isNone <;> simp only [hi, if_pos, if_neg] at hit
    · exact Or.inl hit
    · simp only [Bool.false_eq_true, if_false] at hit
      exact parseStepTail_items st line rest it hit
  case none => exact parseStepTail_items st line rest it hit

lemma parseLoopF_items (fuel : Nat) : ∀ (ls : List String) (st : PState),
    ∀ it ∈ (parseLoopF fuel st ls).items,
      it ∈ st.items ∨ ∃ s : String, it.max_points = parseDecimal s := by
  induction fuel with
  | zero => exact fun ls st it hit => Or.inl hit
  | succ fuel ih =>
    intro ls st it hit
    match ls with
    | [] => exact Or.inl hit
    | l :: rest =>
      rw [parseLoopF] at hit
      by_cases hb : pyStrip l = ""
      · rw [if_pos hb] at hit
        exact ih rest st it hit
      · rw [if_neg hb] at hit
        rcases ih _ _ it hit with h | h
        · exact parseStep_items st (pyStrip l) rest it h
        · exact Or.inr h

/-- C3 amended: every `max_points` produced by `parse_rubric_items` is a
nonnegative decimal rational `n / 10 ^ k`; the points regex accepts any
number of decimal places, not only one. -/
theorem max_points_decimal_rational (text : String) (it : RubricItem)
    (h : it ∈ (parse_rubric_items text).1) :
    ∃ n k : Nat, it.max_points = (n : ℚ) / 10 ^ k := by
  simp only [parse_rubric_items] at h
  rcases parseLoopF_items _ _ _ it h with hin | ⟨s, hs⟩
  · exact absurd hin (by simp [initPState])
  · rw [hs]
    exact parseDecimal_shape s

/-- Witness for C3 at the input `1) Foo (3.25)`: the parsed item with
`max_points` 13/4 is produced and the amended theorem applies to it. -/
theorem max_points_decimal_rational_witness :
    (⟨"1", "Foo", (13 : ℚ) / 4, ""⟩ : RubricItem) ∈
      (parse_rubric_items "1) Foo (3.25)").1 ∧
    ∃ n k : Nat,
      (⟨"1", "Foo", (13 : ℚ) / 4, ""⟩ : RubricItem).max_points = (n : ℚ) / 10 ^ k :=
  ⟨by with_unfolding_all decide,
    max_points_decimal_rational "1) Foo (3.25)" _ (by with_unfolding_all decide)⟩

lemma parseLoopF_all_prose (fuel : Nat) : ∀ (ls : List String) (st : PState),
    ls.length ≤ fuel →
    (∀ l ∈ ls, sectionMatch (pyStrip l) = none ∧ rangeMatch (pyStrip l) = none ∧
      itemMatch (pyStrip l) = none) →
    st.seen_any_item = false →
    parseLoopF fuel st ls =
      { st with preamble_lines :=
          st.preamble_lines ++ (ls.map pyStrip).filter (fun x => x ≠ "") } := by
  induction fuel with
  | zero =>
    intro ls st hlen h hseen
    have he : ls = [] := List.length_eq_zero.mp (Nat.le_zero.mp hlen)
    subst he
    simp [parseLoopF]
  | succ fuel ih =>
    intro ls st hlen h hseen
    match ls with
    | [] => simp [parseLoopF]
    | l :: rest =>
      obtain ⟨hs, hr, hi⟩ := h l (by simp)
      have hrest : ∀ x ∈ rest, sectionMatch (pyStrip x) = none ∧
          rangeMatch (pyStrip x) = none ∧ itemMatch (pyStrip x) = none :=
        fun x hx => h x (by simp [hx])
      have hlen2 : rest.length ≤ fuel := Nat.le_of_succ_le_succ hlen
      rw [parseLoopF]
      by_cases hb : pyStrip l = ""
      · rw [if_pos hb, ih rest st hlen2 hrest hseen]
        simp [hb]
      · rw [if_neg hb]
        have hstep : parseStep st (pyStrip l) rest =
            ({ st with preamble_lines := st.preamble_lines ++ [pyStrip l] }, rest) := by
          unfold parseStep parseStepTail
          rw [hs, hr, hi, hseen]
          simp
        rw [hstep]
        dsimp only
        rw [ih rest { st with preamble_lines := st.preamble_lines ++ [pyStrip l] }
          hlen2 hrest hseen]
        simp [hb, List.filter_cons]

/-- C5: `parse_rubric_items` is total by construction, and on input in which
no stripped line matches any of the three header patterns it returns empty
items, sections, range blocks and inherited scoring, with the non-empty
stripped lines of the input joined as the preamble. -/
theorem parse_all_prose (text : String)
    (h : ∀ l ∈ pySplitlines text, sectionMatch (pyStrip l) = none ∧
      rangeMatch (pyStrip l) = none ∧ itemMatch (pyStrip l) = none) :
    parse_rubric_items text =
      ([], [], [], [],
        pyStrip (joinNl (((pySplitlines text).map pyStrip).filter (fun x => x ≠ "")))) := by
  simp only [parse_rubric_items]
  have hls : ∀ l ∈ (pySplitlines text).map pyRstrip, sectionMatch (pyStrip l) = none ∧
      rangeMatch (pyStrip l) = none ∧ itemMatch (pyStrip l) = none := by
    intro l hl
    obtain ⟨x, hx, rfl⟩ := List.mem_map.mp hl
    rw [pyStrip_rstrip]
    exact h x hx
  rw [parseLoopF_all_prose _ _ _ le_rfl hls rfl]
  have hmm : ((pySplitlines text).map pyRstrip).map pyStrip =
      (pySplitlines text).map pyStrip := by
    rw [List.map_map]
    exact List.map_congr_left (fun x _ => pyStrip_rstrip x)
  simp [initPState, hmm]

/-- Witness for C5 at the input `hello\n\nworld`: no line matches a header
pattern and the parse returns empty structure with preamble
`hello\nworld`. -/
theorem parse_all_prose_witness :
    parse_rubric_items "hello\n\nworld" =
      ([], [], [], [],
        pyStrip (joinNl (((pySplitlines "hello\n\nworld").map pyStrip).filter
          (fun x => x ≠ "")))) ∧
    pyStrip (joinNl (((pySplitlines "hello\n\nworld").map pyStrip).filter
      (fun x => x ≠ ""))) = "hello\nworld" :=
  ⟨parse_all_prose _ (by decide), by decide⟩

lemma splitlinesAux_append (l : List Char) : ∀ (cur r : List Char),
    (∀ c ∈ l, isLineBreak c = false) →
    splitlinesAux cur (l ++ r) = splitlinesAux (cur ++ l) r := by
  induction l with
  | nil => intro cur r h; simp
  | cons c t ih =>
    intro cur r h
    have hc : isLineBreak c = false := h c (by simp)
    have hcr : c ≠ '\r' := fun e => by
      rw [e] at hc
      exact absurd hc (by decide)
    rw [List.cons_append, splitlinesAux]
    · rw [if_neg (by simp [hc]), ih (cur ++ [c]) r (fun x hx => h x (by simp [hx])),
        List.append_assoc]
      rfl
    · exact fun t' h1 h2 => hcr h1

lemma splitlinesAux_newline (cur r : List Char) :
    splitlinesAux cur ('\n' :: r) = String.mk cur :: splitlinesAux [] r := by
  rw [splitlinesAux]
  · rw [if_pos (by decide)]
  · exact fun t h1 h2 => absurd h1 (by decide)

lemma data_ne_nil (a : String) (h : a ≠ "") : a.data ≠ [] := by
  intro hd
  apply h
  cases a
  simp_all

lemma splitlinesAux_joinNl (ls : List String) : ∀ (a : String) (cur : List Char),
    (∀ l ∈ a :: ls, ∀ c ∈ l.data, isLineBreak c = false) →
    (a :: ls).getLast? ≠ some "" →
    splitlinesAux cur (joinNl (a :: ls)).data = String.mk (cur ++ a.data) :: ls := by
  induction ls with
  | nil =>
    intro a cur h hlast
    have ha : a ≠ "" := fun e => hlast (by rw [e]; rfl)
    show splitlinesAux cur a.data = _
    calc splitlinesAux cur a.data
        = splitlinesAux cur (a.data ++ []) := by rw [List.append_nil]
      _ = splitlinesAux (cur ++ a.data) [] :=
          splitlinesAux_append a.data cur [] (h a (by simp))
      _ = [String.mk (cur ++ a.data)] := by
          rw [splitlinesAux, if_neg (by simp [data_ne_nil a ha])]
  | cons b t ih =>
    intro a cur h hlast
    show splitlinesAux cur ((a ++ "\n" ++ joinNl (b :: t)).data) = _
    rw [String.data_append, String.data_append]
    rw [List.append_assoc]
    rw [splitlinesAux_append a.data cur _ (h a (by simp))]
    show splitlinesAux (cur ++ a.data) ('\n' :: (joinNl (b :: t)).data) = _
    rw [splitlinesAux_newline]
    rw [ih b [] (fun l hl => h l (List.mem_cons_of_mem _ hl))
      (by rw [List.getLast?_cons_cons] at hlast; exact hlast)]
    simp

lemma pySplitlines_joinNl (a : String) (ls : List String)
    (h : ∀ l ∈ a :: ls, ∀ c ∈ l.data, isLineBreak c = false)
    (hlast : (a :: ls).getLast? ≠ some "") :
    pySplitlines (joinNl (a :: ls)) = a :: ls := by
  unfold pySplitlines
  rw [splitlinesAux_joinNl ls a [] h hlast]
  simp

lemma consumeDetailsAux_no_stop (b : Bool) (ls : List String) : ∀ acc,
    (∀ l ∈ ls, sectionMatch (pyStrip l) = none ∧ rangeMatch (pyStrip l) = none ∧
      itemMatch (pyStrip l) = none) →
    (consumeDetailsAux b acc ls).2 = [] ∧
    (consumeDetailsAux b acc ls).1.filter (fun x => x ≠ "") =
      acc.filter (fun x => x ≠ "") ++ (ls.map pyStrip).filter (fun x => x ≠ "") := by
  induction ls with
  | nil => exact fun acc h => ⟨rfl, by rw [consumeDetailsAux]; simp⟩
  | cons l rest ih =>
    intro acc h
    obtain ⟨hs, hr, hi⟩ := h l (by simp)
    have hrest := fun x hx => h x (List.mem_cons_of_mem _ hx)
    rw [consumeDetailsAux]
    by_cases hb : pyStrip l = ""
    · rw [if_pos hb]
      obtain ⟨h1, h2⟩ := ih _ hrest
      refine ⟨h1, ?_⟩
      rw [h2]
      by_cases h0 : acc = []
      · simp [h0, hb]
      · by_cases h3 : acc.getLast? = some ""
        · simp [h0, h3, hb]
        · simp [h0, h3, hb, List.filter_append]
    · rw [if_neg hb, if_neg (by simp [hi, hs, hr])]
      obtain ⟨h1, h2⟩ := ih (acc ++ [pyStrip l]) hrest
      refine ⟨h1, ?_⟩
      rw [h2, List.filter_append]
      simp [hb, hs]

lemma parseLoopF_nil (f : Nat) (st : PState) : parseLoopF f st [] = st := by
  cases f <;> rfl

/-- C4 amended: when a range header is followed by a detail body none of
whose lines matches a header pattern, the stored details drop blank lines
entirely: runs of blanks are collapsed to one empty entry in the
intermediate accumulator, but the join filters every empty entry out, so the
details are the non-blank stripped body lines joined by single newlines. -/
theorem range_details_drop_blanks (body : List String)
    (hnb : ∀ l ∈ body, ∀ c ∈ l.data, isLineBreak c = false)
    (hlast : body.getLast? ≠ some "")
    (hnm : ∀ l ∈ body, sectionMatch (pyStrip l) = none ∧ rangeMatch (pyStrip l) = none ∧
      itemMatch (pyStrip l) = none) :
    parse_rubric_items (joinNl ("1-2) Title" :: body)) =
      ([], [], [⟨"1", "2", "1–2) Title",
        pyStrip (joinNl ((body.map pyStrip).filter (fun x => x ≠ "")))⟩], [], "") := by
  have hsplit : pySplitlines (joinNl ("1-2) Title" :: body)) = "1-2) Title" :: body := by
    apply pySplitlines_joinNl
    · intro l hl
      rcases List.mem_cons.mp hl with rfl | hl2
      · decide
      · exact hnb l hl2
    · cases body with
      | nil => decide
      | cons bb tt =>
        rw [List.getLast?_cons_cons]
        exact hlast
  have hmb : ∀ l ∈ body.map pyRstrip, sectionMatch (pyStrip l) = none ∧
      rangeMatch (pyStrip l) = none ∧ itemMatch (pyStrip l) = none := by
    intro l hl
    obtain ⟨x, hx, rfl⟩ := List.mem_map.mp hl
    rw [pyStrip_rstrip]
    exact hnm x hx
  obtain ⟨hcd1, hcd2⟩ := consumeDetailsAux_no_stop true (body.map pyRstrip) [] hmb
  simp only [parse_rubric_items, hsplit, List.map_cons,
    show pyRstrip "1-2) Title" = "1-2) Title" from by decide, List.length_cons,
    parseLoopF, show pyStrip "1-2) Title" = "1-2) Title" from by decide]
  rw [if_neg (by decide : ¬("1-2) Title" : String) = "")]
  have hstep : parseStep initPState "1-2) Title" (body.map pyRstrip) =
      ({ initPState with
          range_blocks := [⟨"1", "2", "1–2) Title",
            detailsOf (consumeDetailsAux true [] (body.map pyRstrip)).1⟩],
          seen_any_item := true },
        (consumeDetailsAux true [] (body.map pyRstrip)).2) := by
    unfold parseStep parseStepTail
    rw [show sectionMatch "1-2) Title" = none from by decide,
      show rangeMatch "1-2) Title" = some ("1", "2", "Title") from by decide]
    dsimp only
    rw [if_neg (by decide : ¬(startsUpper "1" = true ∧ ¬ startsUpper "2" = true))]
    rw [show ("1" ++ "–" ++ "2" ++ ") " ++ pyStrip "Title") = "1–2) Title" from by decide]
    simp [initPState]
  rw [hstep]
  dsimp only
  rw [hcd1, parseLoopF_nil]
  have hdet : detailsOf (consumeDetailsAux true [] (body.map pyRstrip)).1 =
      pyStrip (joinNl ((body.map pyStrip).filter (fun x => x ≠ ""))) := by
    unfold detailsOf
    rw [hcd2]
    have hmp : (body.map pyRstrip).map pyStrip = body.map pyStrip := by
      rw [List.map_map]
      exact List.map_congr_left (fun x _ => pyStrip_rstrip x)
    rw [hmp]
    simp
  rw [hdet]
  simp [initPState]
  decide

/-- Witness for C4 at the body `a`, blank, `b`: the amended theorem applies
and the details evaluate to `a\nb`. -/
theorem range_details_drop_blanks_witness :
    parse_rubric_items (joinNl ("1-2) Title" :: ["a", "", "b"])) =
      ([], [], [⟨"1", "2", "1–2) Title",
        pyStrip (joinNl (((["a", "", "b"] : List String).map pyStrip).filter
          (fun x => x ≠ "")))⟩], [], "") ∧
    pyStrip (joinNl (((["a", "", "b"] : List String).map pyStrip).filter
      (fun x => x ≠ ""))) = "a\nb" :=
  ⟨range_details_drop_blanks ["a", "", "b"] (by decide) (by decide) (by decide),
    by decide⟩

lemma length_dropWhile_le {α : Type} (p : α → Bool) (l : List α) :
    (l.dropWhile p).length ≤ l.length := by
  induction l with
  | nil => exact Nat.le_refl _
  | cons c r ih =>
    by_cases hp : p c
    · rw [List.dropWhile_cons_of_pos hp]
      exact Nat.le_succ_of_le ih
    · rw [List.dropWhile_cons_of_neg hp]

lemma dropWhile_eq_self_of_length_eq {α : Type} (p : α → Bool) (l : List α)
    (h : (l.dropWhile p).length = l.length) : l.dropWhile p = l := by
  cases l with
  | nil => rfl
  | cons c r =>
    by_cases hp : p c
    · rw [List.dropWhile_cons_of_pos hp] at h ⊢
      have := length_dropWhile_le p r
      simp at h
      omega
    · rw [List.dropWhile_cons_of_neg hp]

lemma pyRstrip_of_pyStrip_eq (l : String) (h : pyStrip l = l) : pyRstrip l = l := by
  have h1 : l.data = (pyRstrip l).data.dropWhile pyIsSpace := by
    conv_lhs => rw [← h]
    rfl
  have h2 : (pyRstrip l).data.length ≤ l.data.length := by
    show ((l.data.reverse.dropWhile pyIsSpace).reverse).length ≤ l.data.length
    rw [List.length_reverse]
    have := length_dropWhile_le pyIsSpace l.data.reverse
    rw [List.length_reverse] at this
    exact this
  have h3 : l.data.length ≤ (pyRstrip l).data.length := by
    rw [h1]
    exact length_dropWhile_le pyIsSpace (pyRstrip l).data
  have hlen : (List.dropWhile pyIsSpace (pyRstrip l).data).length =
      (pyRstrip l).data.length := by
    rw [← h1]
    omega
  have h5 : l.data = (pyRstrip l).data := by
    rw [h1, dropWhile_eq_self_of_length_eq pyIsSpace (pyRstrip l).data hlen]
  exact (congrArg String.mk h5).symm

lemma isUpper_false_of_isDigit (c : Char) (h : c.isDigit = true) :
    c.isUpper = false := by
  simp only [Char.isDigit, Bool.and_eq_true, decide_eq_true_eq] at h
  simp only [Char.isUpper, Bool.and_eq_true, decide_eq_true_eq]
  by_contra hb
  simp only [Bool.not_eq_false, Bool.and_eq_true, decide_eq_true_eq] at hb
  exact absurd (UInt32.le_trans hb.1 h.2) (by decide)

lemma takeWhile_head {α : Type} (p : α → Bool) (l : List α)
    (h : l.takeWhile p ≠ []) : ∃ d r, l = d :: r ∧ p d = true := by
  cases l with
  | nil => simp at h
  | cons d r =>
    refine ⟨d, r, rfl, ?_⟩
    by_contra hp
    rw [List.takeWhile_cons_of_neg (by simp_all)] at h
    exact h rfl

lemma rangeMatch_code1 (line s e t : String)
    (hm : rangeMatch line = some (s, e, t)) :
    ∃ c1 r1, parseRCode line.data = some (c1, r1) ∧ s = String.mk c1 := by
  unfold rangeMatch at hm
  cases hp : parseRCode line.data with
  | none => rw [hp] at hm; exact absurd hm (by simp)
  | some p =>
    rw [hp] at hm
    rcases p with ⟨c1, r1⟩
    refine ⟨c1, r1, rfl, ?_⟩
    dsimp only at hm
    split at hm
    · split at hm
      · split at hm
        · split at hm
          · have hinj := Option.some.inj hm
            exact (congrArg Prod.fst hinj).symm
          · exact absurd hm (by simp)
        · exact absurd hm (by simp)
      · exact absurd hm (by simp)
    · exact absurd hm (by simp)

lemma parseRCode_upper (cs : List Char) (c1 r1 : List Char)
    (hp : parseRCode cs = some (c1, r1)) (hu : startsUpper (String.mk c1) = true) :
    ∃ c d r, cs = c :: d :: r ∧ c.isUpper = true ∧ d.isDigit = true := by
  unfold parseRCode at hp
  cases cs with
  | nil => simp at hp
  | cons c tl =>
    dsimp only at hp
    by_cases hcu : c.isUpper
    · rw [if_pos hcu] at hp
      dsimp only at hp
      by_cases hlen : (tl.span Char.isDigit).1.length < 1 ∨ 3 < (tl.span Char.isDigit).1.length
      · rw [if_pos hlen] at hp
        exact absurd hp (by simp)
      · have hne : tl.takeWhile Char.isDigit ≠ [] := by
          intro he
          rw [List.span_eq_take_drop] at hlen
          simp [he] at hlen
        obtain ⟨d, r, rfl, hd⟩ := takeWhile_head Char.isDigit tl hne
        exact ⟨c, d, r, rfl, hcu, hd⟩
    · rw [if_neg hcu] at hp
      dsimp only at hp
      by_cases hlen : ((c :: tl).span Char.isDigit).1.length < 1 ∨
          3 < ((c :: tl).span Char.isDigit).1.length
      · rw [if_pos hlen] at hp
        exact absurd hp (by simp)
      · rw [if_neg hlen] at hp
        have hne : (c :: tl).takeWhile Char.isDigit ≠ [] := by
          intro he
          rw [List.span_eq_take_drop] at hlen
          simp [he] at hlen
        have hcd : c.isDigit = true := by
          by_contra hcd
          rw [List.takeWhile_cons_of_neg (by simp_all)] at hne
          exact hne rfl
        exfalso
        rw [List.span_eq_take_drop, List.takeWhile_cons_of_pos hcd] at hp
        dsimp only at hp
        split at hp
        · split at hp
          · have hc1 := congrArg Prod.fst (Option.some.inj hp)
            dsimp only at hc1
            rw [← hc1] at hu
            simp [startsUpper, isUpper_false_of_isDigit c hcd] at hu
          · exact absurd hp (by simp)
        · have hc1 := congrArg Prod.fst (Option.some.inj hp)
          dsimp only at hc1
          rw [← hc1] at hu
          simp [startsUpper, isUpper_false_of_isDigit c hcd] at hu

lemma sectionMatch_none_of_digit_second (line : String) (c d : Char) (r : List Char)
    (hdata : line.data = c :: d :: r) (hd : d.isDigit = true) :
    sectionMatch line = none := by
  unfold sectionMatch
  rw [hdata]
  split
  · rename_i c2 rest heq
    injection heq with e1 e2
    injection e2 with e3 e4
    rw [e3] at hd
    exact absurd hd (by decide)
  · rfl

/-- C7: a line matching the range header pattern whose start code begins
with an uppercase letter and whose end code does not (parsed as a single
stripped line) is recorded as a range block whose end code is the start
letter prepended to the matched end code. -/
theorem range_end_code_inherits_letter (line s e t : String)
    (hm : rangeMatch line = some (s, e, t))
    (hsp : pySplitlines line = [line])
    (hst : pyStrip line = line)
    (hu : startsUpper s = true)
    (hne : startsUpper e = false) :
    parse_rubric_items line =
      ([], [], [⟨s, String.mk (s.data.take 1 ++ e.data),
        s ++ "–" ++ String.mk (s.data.take 1 ++ e.data) ++ ") " ++ pyStrip t, ""⟩],
        [], "") := by
  obtain ⟨c1, r1, hp, hs1⟩ := rangeMatch_code1 line s e t hm
  obtain ⟨c, d, r, hdata, hcu, hd⟩ := parseRCode_upper line.data c1 r1 hp (hs1 ▸ hu)
  have hsec : sectionMatch line = none :=
    sectionMatch_none_of_digit_second line c d r hdata hd
  have hnempty : line ≠ "" := by
    intro he
    rw [he] at hdata
    exact List.noConfusion hdata
  have hrr : pyRstrip line = line := pyRstrip_of_pyStrip_eq line hst
  have hstep : parseStep initPState line [] =
      ({ initPState with
          range_blocks := [⟨s, String.mk (s.data.take 1 ++ e.data),
            s ++ "–" ++ String.mk (s.data.take 1 ++ e.data) ++ ") " ++ pyStrip t, ""⟩],
          seen_any_item := true }, []) := by
    unfold parseStep parseStepTail
    rw [hsec, hm]
    dsimp only
    rw [if_pos ⟨hu, by rw [hne]; simp⟩]
    simp [initPState, consumeDetailsAux, detailsOf, joinNl]
    decide
  simp only [parse_rubric_items, hsp, List.map_cons, List.map_nil, hrr,
    List.length_cons, List.length_nil]
  rw [parseLoopF, hst, if_neg hnempty]
  rw [hstep]
  dsimp only
  rw [parseLoopF_nil]
  simp [initPState]
  decide

/-- Witness for C7 at the header line `A1-3) Title`: the recorded block runs
from `A1` to `A3` with header `A1–A3) Title`. -/
theorem range_end_code_inherits_letter_witness :
    parse_rubric_items "A1-3) Title" =
      ([], [], [⟨"A1", String.mk ("A1".data.take 1 ++ "3".data),
        "A1" ++ "–" ++ String.mk ("A1".data.take 1 ++ "3".data) ++ ") " ++ pyStrip "Title",
        ""⟩], [], "") ∧
    String.mk ("A1".data.take 1 ++ "3".data) = "A3" ∧
    ("A1" ++ "–" ++ String.mk ("A1".data.take 1 ++ "3".data) ++ ") " ++ pyStrip "Title") =
      "A1–A3) Title" :=
  ⟨range_end_code_inherits_letter "A1-3) Title" "A1" "3" "Title" (by decide) (by decide)
      (by decide) (by decide) (by decide),
    by decide, by decide⟩

end RubricApp
